import Mathlib

set_option maxHeartbeats 1000000

/-!
Verification development for the docfusiondb core: the JSON-aware scalar
functions (`json_extract_path_udf`, `json_contains_udf`,
`json_multi_contains_udf`), the predicate translator (`expr_to_sql`,
`filters_to_sql`, `supports_filters_pushdown`) and the TTL+LRU result cache
(`QueryCache`), shallowly embedded from `src/lib.rs` and `src/cache.rs`.

Modelling conventions:
- JSON parsing (`serde_json::from_str`) is an external library call; a JSON
  text cell is therefore carried as a `JsonText`, the pair of its raw text
  and its parse outcome (`Option JValue`).
- SQL NULL cells of an Arrow `StringArray` are `none` of `Option JsonText`.
- Rust panics (out-of-bounds `Vec` indexing) and `DataFusionError` returns
  are both modelled with `Except String`.
- `Instant` timestamps are abstract `Nat` ticks supplied to each cache
  operation; `elapsed` is truncated subtraction against the current tick.
-/

/-- JSON value as produced by the external JSON parser (serde_json `Value`).
Numbers are modelled by integers; object fields are kept in the
canonical parser sorted, duplicate-free order, so ordered equality of field lists
models map equality of the parser. -/
inductive JValue where
  | null : JValue
  | bool : Bool → JValue
  | num : Int → JValue
  | str : String → JValue
  | arr : List JValue → JValue
  | obj : List (String × JValue) → JValue
deriving Repr

mutual

/-- Structural equality of JSON values, modelling serde_json `PartialEq`. -/
def jeq : JValue → JValue → Bool
  | .null, .null => true
  | .bool a, .bool b => a == b
  | .num a, .num b => a == b
  | .str a, .str b => a == b
  | .arr xs, .arr ys => jeqList xs ys
  | .obj xs, .obj ys => jeqFields xs ys
  | _, _ => false

/-- Elementwise equality of JSON arrays. -/
def jeqList : List JValue → List JValue → Bool
  | [], [] => true
  | x :: xs, y :: ys => jeq x y && jeqList xs ys
  | _, _ => false

/-- Fieldwise equality of JSON object field lists. -/
def jeqFields : List (String × JValue) → List (String × JValue) → Bool
  | [], [] => true
  | (k1, v1) :: xs, (k2, v2) :: ys => k1 == k2 && jeq v1 v2 && jeqFields xs ys
  | _, _ => false

end

/-- Lookup of a top-level key in a JSON object field list (BTreeMap `get`). -/
def objGet (fields : List (String × JValue)) (key : String) : Option JValue :=
  match fields.find? (fun p => p.1 == key) with
  | some p => some p.2
  | none => none

/-- serde_json `Value::get` with a string index: top-level object lookup,
`none` on every non-object value. -/
def JValue.get (v : JValue) (key : String) : Option JValue :=
  match v with
  | .obj fields => objGet fields key
  | _ => none

/-- serde_json `Value::as_str`. -/
def JValue.asStr : JValue → Option String
  | .str s => some s
  | _ => none

/-- A JSON-encoded text cell together with its external parse outcome:
`raw` is the text stored in the Arrow array, `parsed` is what
`serde_json::from_str` returns on it (`none` = parse failure). -/
structure JsonText where
  raw : String
  parsed : Option JValue
deriving Repr

/-- Arrow `StringArray::value` reads the buffer contents of a slot ignoring
validity; for a null slot built by `append_null` that is the empty string. -/
def cellRaw : Option JsonText → String
  | some t => t.raw
  | none => ""

/-- Model of DataFusion `ColumnarValue` arguments handed to the UDFs:
a string array (with its cells), an array of some other type (whose
`StringArray` downcast fails), a `ScalarValue::Utf8`, or a scalar of any
other kind. -/
inductive CV where
  | strArray : List (Option JsonText) → CV
  | otherArray : CV
  | scalarUtf8 : Option JsonText → CV
  | otherScalar : CV
deriving Repr

/-- Per-row body of the result loop of `json_extract_path_udf`
(src/lib.rs lines 88-103): a null document stays null, otherwise parse,
fetch the key, keep string values and default everything else to the
empty string. -/
def extractRow (c : Option JsonText) (key : String) : Option String :=
  match c with
  | none => none
  | some t =>
    some ((t.parsed.bind (fun v => (v.get key).bind JValue.asStr)).getD (""))

/-- Embedding of `json_extract_path_udf` (src/lib.rs lines 43-104).
Argument handling follows the source order: arity check, first-argument
match (the constant-document arm returns early with the raw text),
key extraction (scalar key, or a key column that must have exactly one
element), then the per-row loop. -/
def jsonExtractPathUdf (args : List CV) : Except String (List (Option String)) :=
  match args with
  | [a0, a1] =>
    match a0 with
    | .strArray cells =>
      (match a1 with
       | .scalarUtf8 (some k) => .ok (cells.map (fun c => extractRow c k.raw))
       | .strArray ks =>
         (match ks with
          | [k0] => .ok (cells.map (fun c => extractRow c (cellRaw k0)))
          | _ => .error ("Key array must have exactly one element"))
       | .otherArray => .error ("Expected StringArray")
       | _ => .error ("Invalid second argument to json_extract_path"))
    | .scalarUtf8 (some t) => .ok [some t.raw]
    | .otherArray => .error ("Expected StringArray")
    | _ => .error ("Invalid first argument to json_extract_path")
  | _ => .error ("json_extract_path requires 2 arguments")

/-- Per-row body of the result loop of `json_contains_udf`
(src/lib.rs lines 141-148): parse both texts with `unwrap_or(Value::Null)`,
then object-to-object key containment, anything else false. -/
def containsRow (d p : JsonText) : Bool :=
  match d.parsed.getD JValue.null, p.parsed.getD JValue.null with
  | .obj m1, .obj m2 =>
    m2.all (fun kv =>
      match objGet m1 kv.1 with
      | some w => jeq w kv.2
      | none => false)
  | _, _ => false

/-- Result loop of `json_contains_udf` (src/lib.rs lines 136-152): one
output slot per document row, null whenever either input cell is null.
The source indexes both arrays with the document index; Arrow guarantees
equal lengths, which every theorem below assumes. -/
def containsLoop : List (Option JsonText) → List (Option JsonText) → List (Option Bool)
  | [], _ => []
  | _ :: _, [] => []
  | d :: ds, p :: ps =>
    (match d, p with
     | some dt, some pt => some (containsRow dt pt)
     | _, _ => none) :: containsLoop ds ps

/-- Embedding of `json_contains_udf` (src/lib.rs lines 107-153). -/
def jsonContainsUdf (args : List CV) : Except String (List (Option Bool)) :=
  match args with
  | [a0, a1] =>
    match a0 with
    | .strArray ds =>
      (match a1 with
       | .strArray ps => .ok (containsLoop ds ps)
       | .otherArray => .error ("Expected StringArray")
       | _ => .error ("Invalid second argument to json_contains"))
    | .otherArray => .error ("Expected StringArray")
    | _ => .error ("Invalid first argument to json_contains")
  | _ => .error ("json_contains requires 2 arguments")

/-- Per-row body of the result loop of `json_multi_contains_udf`
(src/lib.rs lines 190-197), a literal duplicate of the `json_contains`
row body. -/
def multiContainsRow (d p : JsonText) : Bool :=
  match d.parsed.getD JValue.null, p.parsed.getD JValue.null with
  | .obj m1, .obj m2 =>
    m2.all (fun kv =>
      match objGet m1 kv.1 with
      | some w => jeq w kv.2
      | none => false)
  | _, _ => false

/-- Result loop of `json_multi_contains_udf` (src/lib.rs lines 185-201). -/
def multiContainsLoop : List (Option JsonText) → List (Option JsonText) → List (Option Bool)
  | [], _ => []
  | _ :: _, [] => []
  | d :: ds, p :: ps =>
    (match d, p with
     | some dt, some pt => some (multiContainsRow dt pt)
     | _, _ => none) :: multiContainsLoop ds ps

/-- Embedding of `json_multi_contains_udf` (src/lib.rs lines 156-202). -/
def jsonMultiContainsUdf (args : List CV) : Except String (List (Option Bool)) :=
  match args with
  | [a0, a1] =>
    match a0 with
    | .strArray ds =>
      (match a1 with
       | .strArray ps => .ok (multiContainsLoop ds ps)
       | .otherArray => .error ("Expected StringArray")
       | _ => .error ("Invalid second argument to json_multi_contains"))
    | .otherArray => .error ("Expected StringArray")
    | _ => .error ("Invalid first argument to json_multi_contains")
  | _ => .error ("json_multi_contains requires 2 arguments")

/-- Both UDF arguments of a well-typed call are arrays (batches). -/
def isBatch : CV → Bool
  | .strArray _ => true
  | .otherArray => true
  | _ => false

/-- Specification row function for `extract_path`, written from the spec
words: null document propagates null; a document that fails to parse, or
lacks the key, or whose value at the key is not a string, yields the empty
string; otherwise that string value. -/
def extractSpecRow (c : Option JsonText) (key : String) : Option String :=
  match c with
  | none => none
  | some t =>
    match t.parsed with
    | none => some ("")
    | some v =>
      match v.get key with
      | some (.str s) => some s
      | _ => some ("")

/-- Specification row function for `contains` as amended: null if either
input is null; otherwise true iff both parse as JSON, both are JSON
objects, and every top-level key of the pattern is present in the document
with an identical value; parse failures and non-object operands give
false. -/
def containsSpecRow (d p : Option JsonText) : Option Bool :=
  match d, p with
  | none, _ => none
  | _, none => none
  | some dt, some pt =>
    some
      (match dt.parsed, pt.parsed with
       | some (.obj dm), some (.obj pm) =>
         pm.all (fun kv =>
           match objGet dm kv.1 with
           | some w => jeq w kv.2
           | none => false)
       | _, _ => false)

/-- Specification row function for `contains` exactly as the claim states
it: null if either input is null; otherwise true iff both parse as JSON,
the pattern is a JSON object, and every top-level key of the pattern is
present in the document with an identical value (no demand that the
document itself be an object). -/
def containsClaimRow (d p : Option JsonText) : Option Bool :=
  match d, p with
  | none, _ => none
  | _, none => none
  | some dt, some pt =>
    some
      (match dt.parsed, pt.parsed with
       | some dv, some (.obj pm) =>
         pm.all (fun kv =>
           match dv.get kv.1 with
           | some w => jeq w kv.2
           | none => false)
       | _, _ => false)

/-- Per-cell wrapper of the `json_contains` row body including the
null-propagation check of the loop. -/
def containsCell (d p : Option JsonText) : Option Bool :=
  match d, p with
  | some dt, some pt => some (containsRow dt pt)
  | _, _ => none

/-- Per-cell wrapper of the `json_multi_contains` row body including the
null-propagation check of the loop. -/
def multiContainsCell (d p : Option JsonText) : Option Bool :=
  match d, p with
  | some dt, some pt => some (multiContainsRow dt pt)
  | _, _ => none

/-- Model of DataFusion `ScalarValue` as the translator consumes it:
a UTF-8 string literal (possibly NULL), or any other literal kind carried
by its canonical display text (its `to_string`). -/
inductive ScalarVal where
  | utf8 : Option String → ScalarVal
  | other : String → ScalarVal
deriving Repr

/-- Display form of a `ScalarValue` (`to_string`); a NULL UTF-8 literal
displays as NULL, other kinds carry their own display text. -/
def ScalarVal.display : ScalarVal → String
  | .utf8 none => "NULL"
  | .utf8 (some v) => v
  | .other r => r

/-- Model of the DataFusion binary operator as matched by the translator:
equality, conjunction, or any other operator (which the translator does
not handle). -/
inductive BinOp where
  | eq : BinOp
  | and : BinOp
  | otherOp : BinOp
deriving Repr, DecidableEq

/-- Model of the DataFusion `Expr` tree as consumed by the translator:
scalar-function calls are matched by the function name, binary
expressions by their operator, plus columns, literals, and a collector
for every other `Expr` variant (all of which translate to `None`). -/
inductive Expr where
  | scalarFunction : String → List Expr → Expr
  | binaryExpr : BinOp → Expr → Expr → Expr
  | column : String → Expr
  | literal : ScalarVal → Expr
  | otherExpr : Expr
deriving Repr

/-- Message used to model a Rust out-of-bounds `Vec` indexing panic. -/
def panicMsg : String := "index out of bounds"

/-- Sequencing of the Rust `?` operator on `Option` inside a function whose
evaluation can also panic: propagate the panic, stop at `None`, continue
on `Some`. -/
def obind (x : Except String (Option String))
    (f : String → Except String (Option String)) : Except String (Option String) :=
  match x with
  | .error m => .error m
  | .ok none => .ok none
  | .ok (some s) => f s

/-- Embedding of `expr_to_sql` (src/lib.rs lines 204-250). Arms appear in
source order; SQL single quotes are written with the escape \x27. A Rust
panic caused by indexing `args[0]` or `args[1]` on a too-short argument
vector is modelled as `Except.error panicMsg`; note that the source
reaches `args[1]` only after `expr_to_sql(&args[0])?` produced a
fragment, which the `obind` sequencing reproduces. -/
def exprToSql : Expr → Except String (Option String)
  | .scalarFunction n args =>
    if n = "json_extract_path" then
      match args with
      | [] => .error panicMsg
      | a0 :: rest =>
        obind (exprToSql a0) (fun col =>
          match rest with
          | [] => .error panicMsg
          | a1 :: _ =>
            match a1 with
            | .literal (.utf8 (some k)) => .ok (some (col ++ "->>\x27" ++ k ++ "\x27"))
            | _ => .ok none)
    else if n = "json_contains" then
      match args with
      | [] => .error panicMsg
      | a0 :: rest =>
        obind (exprToSql a0) (fun col =>
          match rest with
          | [] => .error panicMsg
          | a1 :: _ =>
            obind (exprToSql a1) (fun pat => .ok (some (col ++ " @> " ++ pat))))
    else if n = "json_multi_contains" then
      match args with
      | [] => .error panicMsg
      | a0 :: rest =>
        obind (exprToSql a0) (fun col =>
          match rest with
          | [] => .error panicMsg
          | a1 :: _ =>
            obind (exprToSql a1) (fun pat => .ok (some (col ++ " @> " ++ pat))))
    else .ok none
  | .binaryExpr .eq l r =>
    obind (exprToSql l) (fun ls =>
      obind (exprToSql r) (fun rs =>
        if ls.startsWith ("doc.") then
          .ok (some ("doc->>\x27" ++ ls.drop 4 ++ "\x27 = " ++ rs))
        else
          .ok (some (ls ++ " = " ++ rs))))
  | .binaryExpr .and l r =>
    obind (exprToSql l) (fun ls =>
      obind (exprToSql r) (fun rs => .ok (some ("(" ++ ls ++ " AND " ++ rs ++ ")"))))
  | .binaryExpr .otherOp _ _ => .ok none
  | .column name => .ok (some name)
  | .literal (.utf8 (some v)) => .ok (some ("\x27" ++ v ++ "\x27"))
  | .literal s => .ok (some s.display)
  | .otherExpr => .ok none

/-- True when an `Except` computation returned normally. -/
def exOk {α : Type} : Except String α → Bool
  | .ok _ => true
  | .error _ => false

/-- The fragment of an individually-translatable filter: the translated
text when `expr_to_sql` returns `Some`, and `none` when it returns `None`
or panics. -/
def fragOf (e : Expr) : Option String :=
  match exprToSql e with
  | .ok (some c) => some c
  | _ => none

/-- Sufficient well-formedness condition for panic-freedom of the
translator: every recognized scalar-function call that the translation
recurses into has at least two arguments. -/
def argsOk : Expr → Bool
  | .scalarFunction n args =>
    if n = "json_extract_path" then
      match args with
      | a0 :: _ :: _ => argsOk a0
      | _ => false
    else if n = "json_contains" then
      match args with
      | a0 :: a1 :: _ => argsOk a0 && argsOk a1
      | _ => false
    else if n = "json_multi_contains" then
      match args with
      | a0 :: a1 :: _ => argsOk a0 && argsOk a1
      | _ => false
    else true
  | .binaryExpr _ l r => argsOk l && argsOk r
  | _ => true

/-- The `filter_map(expr_to_sql)` collection loop of `filters_to_sql`
(src/lib.rs line 253): fragments of translatable filters in order,
untranslatable filters dropped, panics propagated. -/
def collectConds : List Expr → Except String (List String)
  | [] => .ok []
  | e :: es =>
    match exprToSql e with
    | .error m => .error m
    | .ok none => collectConds es
    | .ok (some c) =>
      match collectConds es with
      | .error m => .error m
      | .ok rest => .ok (c :: rest)

/-- Embedding of `filters_to_sql` (src/lib.rs lines 252-259): `none` when
no filter translates, otherwise the WHERE clause joining all fragments
with AND. -/
def filtersToSql (filters : List Expr) : Except String (Option String) :=
  match collectConds filters with
  | .error m => .error m
  | .ok conds =>
    if conds.isEmpty then .ok none
    else .ok (some (" WHERE " ++ String.intercalate (" AND ") conds))

/-- Model of DataFusion `TableProviderFilterPushDown` as used by the
provider. -/
inductive PushDown where
  | exact : PushDown
  | unsupported : PushDown
deriving Repr, DecidableEq

/-- The per-filter decision loop of `supports_filters_pushdown`
(src/lib.rs lines 381-390): `Exact` iff `expr_to_sql` returns `Some`,
with a panic inside any filter propagating. -/
def pushdownLoop : List Expr → Except String (List PushDown)
  | [] => .ok []
  | e :: es =>
    match exprToSql e with
    | .error m => .error m
    | .ok r =>
      match pushdownLoop es with
      | .error m => .error m
      | .ok rest => .ok ((if r.isSome then PushDown.exact else PushDown.unsupported) :: rest)

/-- Embedding of `supports_filters_pushdown` (src/lib.rs lines 377-391). -/
def supportsFiltersPushdown (filters : List Expr) : Except String (List PushDown) :=
  pushdownLoop filters

/-- A materialized result row, `HashMap<String, JsonValue>` in the source,
modelled as an association list. -/
def JRow : Type := List (String × JValue)

/-- A materialized query result, `Vec<HashMap<String, JsonValue>>`. -/
def RowSet : Type := List JRow

/-- Embedding of `CacheEntry` (src/cache.rs lines 22-27); `created_at` is
the abstract tick at which the entry was stored. -/
structure CacheEntry where
  data : RowSet
  created_at : Nat
  access_count : Nat

/-- Embedding of `CacheInner` (src/cache.rs lines 14-20): the entry map
(an association list standing for the `HashMap`), the oldest-first
recency order, and the cumulative hit and miss counters. -/
structure CacheInner where
  entries : List (String × CacheEntry)
  access_order : List String
  hits : Nat
  misses : Nat

/-- Configuration half of `QueryCache` (src/cache.rs lines 7-12): TTL in
ticks and the maximum number of entries. -/
structure CacheCfg where
  ttl : Nat
  max_size : Nat

/-- HashMap `get` on the association-list model: the first binding of the
key, if any. -/
def mapGet : List (String × CacheEntry) → String → Option CacheEntry
  | [], _ => none
  | p :: m, k => if p.1 == k then some p.2 else mapGet m k

/-- HashMap `contains_key` on the association-list model. -/
def mapContains (m : List (String × CacheEntry)) (k : String) : Bool :=
  m.any (fun p => p.1 == k)

/-- HashMap `insert` on the association-list model: replace the binding
when the key is present, append it otherwise. -/
def mapInsert (m : List (String × CacheEntry)) (k : String) (v : CacheEntry) :
    List (String × CacheEntry) :=
  if mapContains m k then m.map (fun p => if p.1 == k then (k, v) else p)
  else m ++ [(k, v)]

/-- HashMap `remove` on the association-list model. -/
def mapRemove (m : List (String × CacheEntry)) (k : String) :
    List (String × CacheEntry) :=
  m.filter (fun p => p.1 != k)

/-- The fresh cache state built by `QueryCache::new`. -/
def initCache : CacheInner :=
  { entries := [], access_order := [], hits := 0, misses := 0 }

/-- Embedding of `QueryCache::get` (src/cache.rs lines 45-74), returning
the produced value together with the successor state. An entry found but
older than the TTL is removed and the call returns early with `None`
without touching the counters; a live entry is a hit whose access counter
is bumped and whose key moves to the most-recently-used end; an absent
key is a miss. -/
def cacheGet (c : CacheCfg) (st : CacheInner) (now : Nat) (query : String) :
    Option RowSet × CacheInner :=
  match mapGet st.entries query with
  | some entry =>
    if c.ttl < now - entry.created_at then
      (none,
       { st with
           entries := mapRemove st.entries query,
           access_order := st.access_order.filter (fun q => q != query) })
    else
      (some entry.data,
       { st with
           entries :=
             mapInsert st.entries query
               { entry with access_count := entry.access_count + 1 },
           access_order :=
             st.access_order.filter (fun q => q != query) ++ [query],
           hits := st.hits + 1 })
  | none => (none, { st with misses := st.misses + 1 })

/-- Eviction stage of `QueryCache::put` (src/cache.rs lines 80-86): when
the cache is full and the key is new, remove the first key of the recency
order from the entry map and the order. -/
def putEvict (c : CacheCfg) (st : CacheInner) (query : String) : CacheInner :=
  if c.max_size ≤ st.entries.length && !mapContains st.entries query then
    match st.access_order.head? with
    | some lru =>
      { st with
          entries := mapRemove st.entries lru,
          access_order := st.access_order.filter (fun q => q != lru) }
    | none => st
  else st

/-- Storage stage of `QueryCache::put` (src/cache.rs lines 88-99): insert
or overwrite the entry with a fresh timestamp and access count 1, then
append the key to the recency order only when it is not already there. -/
def putStore (st : CacheInner) (now : Nat) (query : String) (result : RowSet) :
    CacheInner :=
  let st2 :=
    { st with
        entries :=
          mapInsert st.entries query
            { data := result, created_at := now, access_count := 1 } }
  if st2.access_order.contains query then st2
  else { st2 with access_order := st2.access_order ++ [query] }

/-- Embedding of `QueryCache::put` (src/cache.rs lines 77-100): the
eviction stage followed by the storage stage, as in the source. -/
def cachePut (c : CacheCfg) (st : CacheInner) (now : Nat) (query : String)
    (result : RowSet) : CacheInner :=
  putStore (putEvict c st query) now query result

/-- Embedding of `QueryCache::clear` (src/cache.rs lines 103-108): drop
all entries and the recency order, keeping the counters. -/
def cacheClear (st : CacheInner) : CacheInner :=
  { st with entries := [], access_order := [] }

/-- One cache operation of a client session, with the tick at which it
happens. -/
inductive CacheOp where
  | get : Nat → String → CacheOp
  | put : Nat → String → RowSet → CacheOp
  | clear : CacheOp

/-- State transition of a single cache operation. -/
def applyOp (c : CacheCfg) (st : CacheInner) : CacheOp → CacheInner
  | .get now q => (cacheGet c st now q).2
  | .put now q r => cachePut c st now q r
  | .clear => cacheClear st

/-- Cache state after running a sequence of operations on a fresh cache. -/
def runOps (c : CacheCfg) (ops : List CacheOp) : CacheInner :=
  ops.foldl (applyOp c) initCache

/-- Internal consistency invariant of the cache: the recency order is
duplicate-free, the entry map is duplicate-free, and a key is in the
entry map exactly when it is in the recency order. -/
def CacheInv (st : CacheInner) : Prop :=
  st.access_order.Nodup ∧ (st.entries.map Prod.fst).Nodup ∧
    ∀ k, mapContains st.entries k = true ↔ k ∈ st.access_order

/-- Sequencing a panic-free computation with a panic-free continuation is
panic-free. -/
theorem exOk_obind {x : Except String (Option String)}
    {f : String → Except String (Option String)}
    (hx : exOk x = true) (hf : ∀ s, exOk (f s) = true) :
    exOk (obind x f) = true := by
  cases x with
  | error m => simp [exOk] at hx
  | ok r =>
    cases r with
    | none => rfl
    | some s => exact hf s

/-- The translator never panics on an expression whose recognized
scalar-function calls all have at least two arguments. -/
theorem exprToSql_ok_of_argsOk : ∀ e : Expr, argsOk e = true → exOk (exprToSql e) = true
  | .scalarFunction n [], h => by
    simp only [argsOk] at h
    simp only [exprToSql]
    by_cases h1 : n = "json_extract_path"
    · simp [h1] at h
    · by_cases h2 : n = "json_contains"
      · simp [h1, h2] at h
      · by_cases h3 : n = "json_multi_contains"
        · simp [h1, h2, h3] at h
        · simp only [if_neg h1, if_neg h2, if_neg h3]
          rfl
  | .scalarFunction n [a0], h => by
    simp only [argsOk] at h
    simp only [exprToSql]
    by_cases h1 : n = "json_extract_path"
    · simp [h1] at h
    · by_cases h2 : n = "json_contains"
      · simp [h1, h2] at h
      · by_cases h3 : n = "json_multi_contains"
        · simp [h1, h2, h3] at h
        · simp only [if_neg h1, if_neg h2, if_neg h3]
          rfl
  | .scalarFunction n (a0 :: a1 :: rest), h => by
    simp only [argsOk] at h
    simp only [exprToSql]
    by_cases h1 : n = "json_extract_path"
    · rw [if_pos h1] at h
      rw [if_pos h1]
      exact exOk_obind (exprToSql_ok_of_argsOk a0 h) (fun s => by split <;> rfl)
    · rw [if_neg h1] at h
      rw [if_neg h1]
      by_cases h2 : n = "json_contains"
      · rw [if_pos h2] at h
        rw [if_pos h2]
        have hh := Bool.and_eq_true_iff.mp h
        exact exOk_obind (exprToSql_ok_of_argsOk a0 hh.1)
          (fun s => exOk_obind (exprToSql_ok_of_argsOk a1 hh.2) (fun s2 => rfl))
      · rw [if_neg h2] at h
        rw [if_neg h2]
        by_cases h3 : n = "json_multi_contains"
        · rw [if_pos h3] at h
          rw [if_pos h3]
          have hh := Bool.and_eq_true_iff.mp h
          exact exOk_obind (exprToSql_ok_of_argsOk a0 hh.1)
            (fun s => exOk_obind (exprToSql_ok_of_argsOk a1 hh.2) (fun s2 => rfl))
        · rw [if_neg h3]
          rfl
  | .binaryExpr op l r, h => by
    simp only [argsOk] at h
    have hh := Bool.and_eq_true_iff.mp h
    cases op with
    | eq =>
      simp only [exprToSql]
      exact exOk_obind (exprToSql_ok_of_argsOk l hh.1)
        (fun s => exOk_obind (exprToSql_ok_of_argsOk r hh.2) (fun s2 => by split <;> rfl))
    | and =>
      simp only [exprToSql]
      exact exOk_obind (exprToSql_ok_of_argsOk l hh.1)
        (fun s => exOk_obind (exprToSql_ok_of_argsOk r hh.2) (fun s2 => rfl))
    | otherOp => rfl
  | .column c, _ => rfl
  | .literal (.utf8 none), _ => rfl
  | .literal (.utf8 (some v)), _ => rfl
  | .literal (.other s), _ => rfl
  | .otherExpr, _ => rfl

/-- C9 (corrected): as stated, the claim is false — `expr_to_sql` indexes
`args[0]` on a recognized scalar-function call, so a `json_extract_path`
call with an empty argument list panics instead of returning `Some` or
`None`; the model returns the panic as an error. -/
theorem expr_to_sql_panics_on_missing_args :
    exprToSql (Expr.scalarFunction ("json_extract_path") []) = .error panicMsg ∧
    exOk (exprToSql (Expr.scalarFunction ("json_extract_path") [])) = false :=
  ⟨rfl, rfl⟩

/-- C9 (amended): `expr_to_sql` is a pure function that returns `Some`
fragment or `None` and never panics on every expression tree in which
each recognized scalar-function call carries at least two arguments. -/
theorem expr_to_sql_total_on_wellformed (e : Expr) (h : argsOk e = true) :
    exOk (exprToSql e) = true :=
  exprToSql_ok_of_argsOk e h

/-- Witness for the amended C9 theorem at a concrete well-formed
expression. -/
theorem expr_to_sql_total_on_wellformed_witness :
    argsOk (Expr.binaryExpr .eq (Expr.column ("id")) (Expr.literal (.other ("1")))) = true ∧
    exOk (exprToSql (Expr.binaryExpr .eq (Expr.column ("id")) (Expr.literal (.other ("1"))))) = true :=
  ⟨rfl, expr_to_sql_total_on_wellformed
    (Expr.binaryExpr .eq (Expr.column ("id")) (Expr.literal (.other ("1")))) rfl⟩

/-- The translation collection loop of `filters_to_sql` produces exactly
the fragments of the individually-translatable filters, in order, when
every filter translates without panicking. -/
theorem collectConds_eq (fs : List Expr) (h : ∀ e ∈ fs, exOk (exprToSql e) = true) :
    collectConds fs = .ok (fs.filterMap fragOf) := by
  induction fs with
  | nil => rfl
  | cons e es ih =>
    have he : exOk (exprToSql e) = true := h e (List.mem_cons_self e es)
    have hes : ∀ x ∈ es, exOk (exprToSql x) = true :=
      fun x hx => h x (List.mem_cons_of_mem e hx)
    cases hx : exprToSql e with
    | error m => rw [hx] at he; simp [exOk] at he
    | ok r =>
      cases r with
      | none => simp [collectConds, hx, List.filterMap_cons, fragOf, ih hes]
      | some c => simp [collectConds, hx, List.filterMap_cons, fragOf, ih hes]

/-- The per-filter decision loop of `supports_filters_pushdown` reports
`Exact` exactly for the filters that translate, independently of their
siblings, when every filter translates without panicking. -/
theorem pushdownLoop_eq (fs : List Expr) (h : ∀ e ∈ fs, exOk (exprToSql e) = true) :
    pushdownLoop fs =
      .ok (fs.map (fun e => if (fragOf e).isSome then PushDown.exact else PushDown.unsupported)) := by
  induction fs with
  | nil => rfl
  | cons e es ih =>
    have he : exOk (exprToSql e) = true := h e (List.mem_cons_self e es)
    have hes : ∀ x ∈ es, exOk (exprToSql x) = true :=
      fun x hx => h x (List.mem_cons_of_mem e hx)
    cases hx : exprToSql e with
    | error m => rw [hx] at he; simp [exOk] at he
    | ok r =>
      cases r with
      | none => simp [pushdownLoop, hx, List.map_cons, fragOf, ih hes]
      | some c => simp [pushdownLoop, hx, List.map_cons, fragOf, ih hes]

/-- C1 (corrected): as stated, the claim is false — a filter list holding
a recognized scalar-function call with a single argument makes both
`filters_to_sql` and `supports_filters_pushdown` panic (modelled as an
error) instead of dropping the untranslatable filter and reporting a
per-filter decision. -/
theorem filters_panic_counterexample :
    filtersToSql [Expr.scalarFunction ("json_contains") [Expr.column ("doc")]] =
      .error panicMsg ∧
    supportsFiltersPushdown [Expr.scalarFunction ("json_contains") [Expr.column ("doc")]] =
      .error panicMsg :=
  ⟨rfl, rfl⟩

/-- C1 (amended): for every filter list in which the translation of each filter
returns (no recognized call is missing arguments), the WHERE clause is
the AND-join of exactly the fragments of the individually-translatable
filters, it is omitted entirely when no filter translates, and the
pushdown decision is Exact for a filter iff that filter translates,
independently of its siblings. -/
theorem filters_to_sql_where_clause (filters : List Expr)
    (h : ∀ e ∈ filters, exOk (exprToSql e) = true) :
    filtersToSql filters =
      .ok (if (filters.filterMap fragOf).isEmpty then none
           else some (" WHERE " ++ String.intercalate (" AND ") (filters.filterMap fragOf))) ∧
    supportsFiltersPushdown filters =
      .ok (filters.map (fun e => if (fragOf e).isSome then PushDown.exact else PushDown.unsupported)) := by
  constructor
  · unfold filtersToSql
    rw [collectConds_eq filters h]
    by_cases hc : (List.filterMap fragOf filters).isEmpty <;> simp [hc]
  · exact pushdownLoop_eq filters h

/-- Witness for the amended C1 theorem on a concrete filter list with one
translatable and one untranslatable filter. -/
theorem filters_to_sql_where_clause_witness :
    filtersToSql [Expr.binaryExpr .eq (Expr.column ("id")) (Expr.literal (.other ("1"))), Expr.otherExpr] =
      .ok (some (" WHERE id = 1")) ∧
    supportsFiltersPushdown [Expr.binaryExpr .eq (Expr.column ("id")) (Expr.literal (.other ("1"))), Expr.otherExpr] =
      .ok [PushDown.exact, PushDown.unsupported] := by
  have h := filters_to_sql_where_clause
    [Expr.binaryExpr .eq (Expr.column ("id")) (Expr.literal (.other ("1"))), Expr.otherExpr]
    (by intro e he; fin_cases he <;> rfl)
  exact ⟨h.1.trans rfl, h.2.trans rfl⟩

/-- The implementation row body of `extract_path` agrees with the
specification row function. -/
theorem extractRow_eq_spec (c : Option JsonText) (key : String) :
    extractRow c key = extractSpecRow c key := by
  cases c with
  | none => rfl
  | some t =>
    cases hp : t.parsed with
    | none => simp [extractRow, extractSpecRow, hp]
    | some v =>
      cases hg : v.get key with
      | none => simp [extractRow, extractSpecRow, hp, hg]
      | some w =>
        cases w <;> simp [extractRow, extractSpecRow, hp, hg, JValue.asStr]

/-- C2 (confirmed): over a column of documents with a constant key,
`json_extract_path_udf` is the positional map of the specification row
function: null documents propagate null, a document that fails to parse,
lacks the key, or holds a non-string value there yields the empty string,
and otherwise the string value is returned (so the result is a non-null
string for every non-null document). -/
theorem json_extract_path_row_semantics (ds : List (Option JsonText)) (k : JsonText) :
    jsonExtractPathUdf [CV.strArray ds, CV.scalarUtf8 (some k)] =
      .ok (ds.map (fun c => extractSpecRow c k.raw)) := by
  have hf : (fun c => extractRow c k.raw) = (fun c => extractSpecRow c k.raw) :=
    funext (fun c => extractRow_eq_spec c k.raw)
  simp only [jsonExtractPathUdf, hf]

/-- The per-cell wrapper of the `json_contains` loop body agrees with the
amended specification row function. -/
theorem containsCell_eq_spec (d p : Option JsonText) :
    containsCell d p = containsSpecRow d p := by
  cases d with
  | none => cases p <;> rfl
  | some dt =>
    cases p with
    | none => rfl
    | some pt =>
      simp only [containsCell, containsSpecRow]
      congr 1
      cases hd : dt.parsed with
      | none =>
        cases hp : pt.parsed with
        | none => simp [containsRow, hd, hp]
        | some pv => cases pv <;> simp [containsRow, hd, hp]
      | some dv =>
        cases hp : pt.parsed with
        | none => cases dv <;> simp [containsRow, hd, hp]
        | some pv => cases dv <;> cases pv <;> simp [containsRow, hd, hp]

/-- The `json_contains` result loop is the positional zip of its per-cell
wrapper. -/
theorem containsLoop_eq_zipWith (ds ps : List (Option JsonText)) :
    containsLoop ds ps = List.zipWith containsCell ds ps := by
  induction ds generalizing ps with
  | nil => cases ps <;> rfl
  | cons d ds ih =>
    cases ps with
    | nil => rfl
    | cons p ps =>
      show containsCell d p :: containsLoop ds ps = _
      rw [List.zipWith_cons_cons, ih]

/-- The `json_multi_contains` result loop is the positional zip of its
per-cell wrapper. -/
theorem multiContainsLoop_eq_zipWith (ds ps : List (Option JsonText)) :
    multiContainsLoop ds ps = List.zipWith multiContainsCell ds ps := by
  induction ds generalizing ps with
  | nil => cases ps <;> rfl
  | cons d ds ih =>
    cases ps with
    | nil => rfl
    | cons p ps =>
      show multiContainsCell d p :: multiContainsLoop ds ps = _
      rw [List.zipWith_cons_cons, ih]

/-- C3 (corrected): as stated, the claim is false — for the document
`[1,2]` (valid JSON, not an object) and the pattern `{}` (a JSON object
with no keys), every top-level key of the pattern is vacuously present in
the document, so the claimed iff demands true, yet `json_contains_udf`
returns false because the document itself is not an object. -/
theorem json_contains_empty_pattern_counterexample :
    containsClaimRow (some ⟨"[1,2]", some (.arr [.num 1, .num 2])⟩)
        (some ⟨"\x7b\x7d", some (.obj [])⟩) = some true ∧
    jsonContainsUdf [CV.strArray [some ⟨"[1,2]", some (.arr [.num 1, .num 2])⟩],
        CV.strArray [some ⟨"\x7b\x7d", some (.obj [])⟩]] = .ok [some false] :=
  ⟨rfl, rfl⟩

/-- C3 (amended): for equal-length batches, `json_contains_udf` is the
positional zip of the amended specification row: null if either cell is
null; otherwise true iff both parse as JSON, both are JSON objects, and
every top-level key of the pattern is present in the document with an
identical value; any parse failure or non-object operand yields false,
never null. -/
theorem json_contains_row_semantics (ds ps : List (Option JsonText))
    (h : ds.length = ps.length) :
    jsonContainsUdf [CV.strArray ds, CV.strArray ps] =
      .ok (List.zipWith containsSpecRow ds ps) := by
  have hf : containsCell = containsSpecRow :=
    funext (fun d => funext (fun p => containsCell_eq_spec d p))
  simp only [jsonContainsUdf, containsLoop_eq_zipWith, hf]

/-- Witness for the amended C3 theorem on the examples given by the spec. -/
theorem json_contains_row_semantics_witness :
    jsonContainsUdf
        [CV.strArray [some ⟨"\x7b\"a\":1,\"b\":2\x7d", some (.obj [("a", .num 1), ("b", .num 2)])⟩,
                      some ⟨"\x7b\"a\":1,\"b\":2\x7d", some (.obj [("a", .num 1), ("b", .num 2)])⟩,
                      none],
         CV.strArray [some ⟨"\x7b\"a\":1\x7d", some (.obj [("a", .num 1)])⟩,
                      some ⟨"\x7b\"a\":2\x7d", some (.obj [("a", .num 2)])⟩,
                      some ⟨"\x7b\"a\":1\x7d", some (.obj [("a", .num 1)])⟩]] =
      .ok [some true, some false, none] :=
  (json_contains_row_semantics
    [some ⟨"\x7b\"a\":1,\"b\":2\x7d", some (.obj [("a", .num 1), ("b", .num 2)])⟩,
     some ⟨"\x7b\"a\":1,\"b\":2\x7d", some (.obj [("a", .num 1), ("b", .num 2)])⟩,
     none]
    [some ⟨"\x7b\"a\":1\x7d", some (.obj [("a", .num 1)])⟩,
     some ⟨"\x7b\"a\":2\x7d", some (.obj [("a", .num 2)])⟩,
     some ⟨"\x7b\"a\":1\x7d", some (.obj [("a", .num 1)])⟩] rfl).trans rfl

/-- The per-cell wrapper of the `json_multi_contains` loop body agrees
with the amended specification row function for `contains`. -/
theorem multiContainsCell_eq_spec (d p : Option JsonText) :
    multiContainsCell d p = containsSpecRow d p := by
  cases d with
  | none => cases p <;> rfl
  | some dt =>
    cases p with
    | none => rfl
    | some pt =>
      simp only [multiContainsCell, containsSpecRow]
      congr 1
      cases hd : dt.parsed with
      | none =>
        cases hp : pt.parsed with
        | none => simp [multiContainsRow, hd, hp]
        | some pv => cases pv <;> simp [multiContainsRow, hd, hp]
      | some dv =>
        cases hp : pt.parsed with
        | none => cases dv <;> simp [multiContainsRow, hd, hp]
        | some pv => cases dv <;> cases pv <;> simp [multiContainsRow, hd, hp]

/-- C6 (confirmed): on every pair of input batches (array arguments),
`json_multi_contains_udf` returns exactly the same result as
`json_contains_udf`. -/
theorem multi_contains_eq_contains (a0 a1 : CV)
    (h0 : isBatch a0 = true) (h1 : isBatch a1 = true) :
    jsonMultiContainsUdf [a0, a1] = jsonContainsUdf [a0, a1] := by
  cases a0 with
  | strArray ds =>
    cases a1 with
    | strArray ps =>
      have hm : multiContainsCell = containsCell := by
        funext d p
        rw [multiContainsCell_eq_spec, containsCell_eq_spec]
      simp only [jsonMultiContainsUdf, jsonContainsUdf, multiContainsLoop_eq_zipWith,
        containsLoop_eq_zipWith, hm]
    | otherArray => rfl
    | scalarUtf8 s => simp [isBatch] at h1
    | otherScalar => simp [isBatch] at h1
  | otherArray =>
    cases a1 <;> rfl
  | scalarUtf8 s => simp [isBatch] at h0
  | otherScalar => simp [isBatch] at h0

/-- Witness for the C6 theorem on concrete single-row batches. -/
theorem multi_contains_eq_contains_witness :
    jsonMultiContainsUdf
        [CV.strArray [some ⟨"\x7b\"x\":true,\"y\":1\x7d", some (.obj [("x", .bool true), ("y", .num 1)])⟩],
         CV.strArray [some ⟨"\x7b\"x\":true\x7d", some (.obj [("x", .bool true)])⟩]] =
      jsonContainsUdf
        [CV.strArray [some ⟨"\x7b\"x\":true,\"y\":1\x7d", some (.obj [("x", .bool true), ("y", .num 1)])⟩],
         CV.strArray [some ⟨"\x7b\"x\":true\x7d", some (.obj [("x", .bool true)])⟩]] :=
  multi_contains_eq_contains
    (CV.strArray [some ⟨"\x7b\"x\":true,\"y\":1\x7d", some (.obj [("x", .bool true), ("y", .num 1)])⟩])
    (CV.strArray [some ⟨"\x7b\"x\":true\x7d", some (.obj [("x", .bool true)])⟩]) rfl rfl

/-- C7 (corrected): as stated, the claim is false — `json_extract_path_udf`
rejects a key column with one key per row: handing it a two-row key
column alongside a two-row document column produces an error rather than
applying the key of each row to the document of that row. -/
theorem extract_path_key_column_rejected :
    jsonExtractPathUdf
        [CV.strArray [some ⟨"\x7b\"a\":\"x\"\x7d", some (.obj [("a", .str ("x"))])⟩,
                      some ⟨"\x7b\"b\":\"y\"\x7d", some (.obj [("b", .str ("y"))])⟩],
         CV.strArray [some ⟨"a", none⟩, some ⟨"b", none⟩]] =
      .error ("Key array must have exactly one element") ∧
    jsonExtractPathUdf
        [CV.strArray [some ⟨"\x7b\"a\":\"x\"\x7d", some (.obj [("a", .str ("x"))])⟩,
                      some ⟨"\x7b\"b\":\"y\"\x7d", some (.obj [("b", .str ("y"))])⟩],
         CV.strArray [some ⟨"a", none⟩, some ⟨"b", none⟩]] ≠
      .ok [some ("x"), some ("y")] :=
  ⟨rfl, fun hcontra =>
    Except.noConfusion
      (show (Except.error ("Key array must have exactly one element") :
          Except String (List (Option String))) = .ok [some ("x"), some ("y")] from hcontra)⟩

/-- C7 (amended): `json_contains_udf` and `json_multi_contains_udf` operate
row-by-row with a possibly different pattern per row; `json_extract_path_udf`
operates row-by-row over the documents but applies one single key to all
rows — the key may be a scalar or a single-element column, and a key
column of any other length is rejected. -/
theorem scalar_functions_rowwise :
    (∀ ds ps : List (Option JsonText), ds.length = ps.length →
       jsonContainsUdf [CV.strArray ds, CV.strArray ps] =
         .ok (List.zipWith containsCell ds ps)) ∧
    (∀ ds ps : List (Option JsonText), ds.length = ps.length →
       jsonMultiContainsUdf [CV.strArray ds, CV.strArray ps] =
         .ok (List.zipWith multiContainsCell ds ps)) ∧
    (∀ (ds : List (Option JsonText)) (k : Option JsonText),
       jsonExtractPathUdf [CV.strArray ds, CV.strArray [k]] =
         .ok (ds.map (fun c => extractRow c (cellRaw k)))) ∧
    (∀ ds ks : List (Option JsonText), ks.length ≠ 1 →
       jsonExtractPathUdf [CV.strArray ds, CV.strArray ks] =
         .error ("Key array must have exactly one element")) := by
  refine ⟨?_, ?_, ?_, ?_⟩
  · intro ds ps _
    simp only [jsonContainsUdf, containsLoop_eq_zipWith]
  · intro ds ps _
    simp only [jsonMultiContainsUdf, multiContainsLoop_eq_zipWith]
  · intro ds k
    rfl
  · intro ds ks h
    match ks with
    | [] => rfl
    | [k0] => exact absurd rfl h
    | k0 :: k1 :: rest => rfl

/-- Witness for the amended C7 theorem: a per-row pattern changes the
per-row result of `contains`, and a two-element key column is rejected. -/
theorem scalar_functions_rowwise_witness :
    jsonContainsUdf
        [CV.strArray [some ⟨"\x7b\"s\":1\x7d", some (.obj [("s", .num 1)])⟩,
                      some ⟨"\x7b\"s\":1\x7d", some (.obj [("s", .num 1)])⟩],
         CV.strArray [some ⟨"\x7b\"s\":1\x7d", some (.obj [("s", .num 1)])⟩,
                      some ⟨"\x7b\"s\":2\x7d", some (.obj [("s", .num 2)])⟩]] =
      .ok [some true, some false] ∧
    jsonExtractPathUdf
        [CV.strArray [some ⟨"\x7b\"s\":\"v\"\x7d", some (.obj [("s", .str ("v"))])⟩],
         CV.strArray [some ⟨"s", none⟩, some ⟨"s", none⟩]] =
      .error ("Key array must have exactly one element") := by
  constructor
  · exact (scalar_functions_rowwise.1
      [some ⟨"\x7b\"s\":1\x7d", some (.obj [("s", .num 1)])⟩,
       some ⟨"\x7b\"s\":1\x7d", some (.obj [("s", .num 1)])⟩]
      [some ⟨"\x7b\"s\":1\x7d", some (.obj [("s", .num 1)])⟩,
       some ⟨"\x7b\"s\":2\x7d", some (.obj [("s", .num 2)])⟩] rfl).trans rfl
  · exact scalar_functions_rowwise.2.2.2
      [some ⟨"\x7b\"s\":\"v\"\x7d", some (.obj [("s", .str ("v"))])⟩]
      [some ⟨"s", none⟩, some ⟨"s", none⟩] (by decide)

/-- C8 (code bug): the spec requires a single constant document to be
broadcast with the same extraction semantics as the column case, but the
scalar-document arm of `json_extract_path_udf` returns the raw document
text itself in a one-element array, never consulting the key: on the
document whose extraction at key status is the string active, the call
returns the whole JSON text instead. -/
theorem extract_path_scalar_doc_returns_raw :
    jsonExtractPathUdf
        [CV.scalarUtf8 (some ⟨"\x7b\"status\":\"active\"\x7d",
            some (.obj [("status", .str ("active"))])⟩),
         CV.scalarUtf8 (some ⟨"status", none⟩)] =
      .ok [some ("\x7b\"status\":\"active\"\x7d")] ∧
    extractRow (some ⟨"\x7b\"status\":\"active\"\x7d",
        some (.obj [("status", .str ("active"))])⟩) ("status") = some ("active") ∧
    ("\x7b\"status\":\"active\"\x7d" : String) ≠ ("active") :=
  ⟨rfl, rfl, by decide⟩

/-- C4 (code bug): `get` on a key whose entry was stored at tick 0 and
read at tick 2 with TTL 1 finds the entry expired: it removes the entry
and returns none, but the miss counter stays at 0 instead of rising to 1
as the spec requires — the early return of the expired branch in
`QueryCache::get` skips the `misses += 1` statement. -/
theorem cache_get_expired_misses_unchanged :
    mapGet (cachePut ⟨1, 10⟩ initCache 0 ("k") [[("a", JValue.num 1)]]).entries ("k") =
      some ⟨[[("a", JValue.num 1)]], 0, 1⟩ ∧
    (cachePut ⟨1, 10⟩ initCache 0 ("k") [[("a", JValue.num 1)]]).misses = 0 ∧
    (cacheGet ⟨1, 10⟩ (cachePut ⟨1, 10⟩ initCache 0 ("k") [[("a", JValue.num 1)]]) 2 ("k")).1 =
      none ∧
    mapGet (cacheGet ⟨1, 10⟩ (cachePut ⟨1, 10⟩ initCache 0 ("k") [[("a", JValue.num 1)]]) 2
        ("k")).2.entries ("k") = none ∧
    (cacheGet ⟨1, 10⟩ (cachePut ⟨1, 10⟩ initCache 0 ("k") [[("a", JValue.num 1)]]) 2
        ("k")).2.misses = 0 :=
  ⟨rfl, rfl, rfl, rfl, rfl⟩

/-- Key membership characterizes `mapContains`. -/
theorem mapContains_eq_true_iff (m : List (String × CacheEntry)) (k : String) :
    mapContains m k = true ↔ k ∈ m.map Prod.fst := by
  simp [mapContains, List.any_eq_true, List.mem_map]

/-- A successful lookup implies key membership. -/
theorem mapContains_of_mapGet_some {m : List (String × CacheEntry)} {k : String}
    {e : CacheEntry} (h : mapGet m k = some e) : mapContains m k = true := by
  induction m with
  | nil => simp [mapGet] at h
  | cons p m ih =>
    by_cases hp : (p.1 == k) = true
    · simp [mapContains, List.any_cons, hp]
    · rw [mapGet, if_neg (by simp [hp])] at h
      simp [mapContains, List.any_cons, hp]
      simpa [mapContains] using ih h

/-- Replacing the binding of a present key keeps the key list. -/
theorem map_fst_replace (m : List (String × CacheEntry)) (k : String) (v : CacheEntry) :
    (m.map (fun p => if p.1 == k then (k, v) else p)).map Prod.fst = m.map Prod.fst := by
  induction m with
  | nil => rfl
  | cons p m ih =>
    by_cases hp : (p.1 == k) = true
    · simp only [List.map_cons, if_pos hp, ih]
      rw [show p.1 = k from by simpa using hp]
    · simp only [List.map_cons, if_neg (by simp [hp] : ¬((p.1 == k) = true)), ih]

/-- Key list of an insert over a present key. -/
theorem keys_mapInsert_contains (m : List (String × CacheEntry)) (k : String)
    (v : CacheEntry) (h : mapContains m k = true) :
    (mapInsert m k v).map Prod.fst = m.map Prod.fst := by
  unfold mapInsert
  rw [if_pos h]
  exact map_fst_replace m k v

/-- Key list of an insert over an absent key. -/
theorem keys_mapInsert_new (m : List (String × CacheEntry)) (k : String)
    (v : CacheEntry) (h : mapContains m k = false) :
    (mapInsert m k v).map Prod.fst = m.map Prod.fst ++ [k] := by
  unfold mapInsert
  rw [if_neg (by simp [h])]
  simp

/-- Key list of a removal. -/
theorem keys_mapRemove (m : List (String × CacheEntry)) (k : String) :
    (mapRemove m k).map Prod.fst = (m.map Prod.fst).filter (fun s => s != k) := by
  induction m with
  | nil => rfl
  | cons p m ih =>
    by_cases hp : (p.1 != k) = true
    · simp only [mapRemove, List.filter_cons, hp, List.map_cons, if_pos trivial]
      simpa [mapRemove] using ih
    · simp only [mapRemove, List.filter_cons, hp, List.map_cons]
      simpa [mapRemove] using ih

/-- Lookup after replacing the binding of a present key. -/
theorem mapGet_replace_self (m : List (String × CacheEntry)) (k : String)
    (v : CacheEntry) (hc : mapContains m k = true) :
    mapGet (m.map (fun p => if p.1 == k then (k, v) else p)) k = some v := by
  induction m with
  | nil => simp [mapContains] at hc
  | cons p m ih =>
    by_cases hp : (p.1 == k) = true
    · simp only [List.map_cons, if_pos hp, mapGet]
      simp
    · simp only [List.map_cons, if_neg (by simp [hp] : ¬((p.1 == k) = true)), mapGet]
      exact ih (by simpa [mapContains, List.any_cons, hp] using hc)

/-- Lookup after replacing the binding of one key, read at another key. -/
theorem mapGet_replace_ne (m : List (String × CacheEntry)) (k k2 : String)
    (v : CacheEntry) (hne : k2 ≠ k) :
    mapGet (m.map (fun p => if p.1 == k then (k, v) else p)) k2 = mapGet m k2 := by
  induction m with
  | nil => rfl
  | cons p m ih =>
    by_cases hp : (p.1 == k) = true
    · have hp1 : p.1 = k := by simpa using hp
      simp only [List.map_cons, if_pos hp, mapGet]
      rw [if_neg (by simp [Ne.symm hne]), if_neg (by simp [hp1, Ne.symm hne]), ih]
    · simp only [List.map_cons, if_neg (by simp [hp] : ¬((p.1 == k) = true)), mapGet, ih]

/-- Lookup after appending a new binding for an absent key. -/
theorem mapGet_append_self (m : List (String × CacheEntry)) (k : String)
    (v : CacheEntry) : mapContains m k = false → mapGet (m ++ [(k, v)]) k = some v := by
  induction m with
  | nil => intro _; simp [mapGet]
  | cons p m ih =>
    intro hc
    have hp : (p.1 == k) = false := by
      cases hpk : (p.1 == k) <;> simp [mapContains, List.any_cons, hpk] at hc ⊢
    rw [List.cons_append]
    simp only [mapGet]
    rw [if_neg (by simp [hp])]
    exact ih (by simpa [mapContains, List.any_cons, hp] using hc)

/-- Lookup of a different key is unchanged by appending a binding. -/
theorem mapGet_append_ne (m : List (String × CacheEntry)) (k k2 : String)
    (v : CacheEntry) (hne : k2 ≠ k) : mapGet (m ++ [(k, v)]) k2 = mapGet m k2 := by
  induction m with
  | nil => simp [mapGet, Ne.symm hne]
  | cons p m ih =>
    rw [List.cons_append]
    simp only [mapGet, ih]

/-- An insert stores exactly the fresh binding at its key. -/
theorem mapGet_mapInsert_self (m : List (String × CacheEntry)) (k : String)
    (v : CacheEntry) : mapGet (mapInsert m k v) k = some v := by
  unfold mapInsert
  by_cases hc : mapContains m k = true
  · rw [if_pos hc]
    exact mapGet_replace_self m k v hc
  · rw [if_neg hc]
    exact mapGet_append_self m k v (by simpa using hc)

/-- An insert leaves lookups of other keys unchanged. -/
theorem mapGet_mapInsert_ne (m : List (String × CacheEntry)) (k k2 : String)
    (v : CacheEntry) (hne : k2 ≠ k) : mapGet (mapInsert m k v) k2 = mapGet m k2 := by
  unfold mapInsert
  split
  · exact mapGet_replace_ne m k k2 v hne
  · exact mapGet_append_ne m k k2 v hne

/-- A removal erases the key. -/
theorem mapGet_mapRemove_self (m : List (String × CacheEntry)) (k : String) :
    mapGet (mapRemove m k) k = none := by
  unfold mapRemove
  induction m with
  | nil => rfl
  | cons p m ih =>
    rw [List.filter_cons]
    by_cases hp : (p.1 != k) = true
    · rw [if_pos hp]
      simp only [mapGet]
      rw [if_neg (by simpa using hp)]
      exact ih
    · rw [if_neg hp]
      exact ih

/-- The invariant holds for the fresh cache of `QueryCache::new`. -/
theorem cacheInv_init : CacheInv initCache := by
  refine ⟨List.nodup_nil, List.nodup_nil, ?_⟩
  intro k
  simp [mapContains, initCache]

/-- Removing one key from both the entry map and the recency order
preserves the invariant. -/
theorem cacheInv_remove (st : CacheInner) (x : String) (h : CacheInv st) :
    CacheInv { st with entries := mapRemove st.entries x,
                       access_order := st.access_order.filter (fun q => q != x) } := by
  obtain ⟨h1, h2, h3⟩ := h
  refine ⟨h1.filter _, ?_, ?_⟩
  · rw [keys_mapRemove]
    exact h2.filter _
  · intro k
    rw [mapContains_eq_true_iff, keys_mapRemove, List.mem_filter, List.mem_filter]
    constructor
    · rintro ⟨hk, hne⟩
      exact ⟨(h3 k).mp ((mapContains_eq_true_iff _ _).mpr hk), hne⟩
    · rintro ⟨hk, hne⟩
      exact ⟨(mapContains_eq_true_iff _ _).mp ((h3 k).mpr hk), hne⟩

/-- `QueryCache::get` preserves the invariant. -/
theorem cacheInv_get (c : CacheCfg) (st : CacheInner) (now : Nat) (q : String)
    (h : CacheInv st) : CacheInv (cacheGet c st now q).2 := by
  unfold cacheGet
  cases hx : mapGet st.entries q with
  | none => exact ⟨h.1, h.2.1, h.2.2⟩
  | some entry =>
    dsimp only
    by_cases ht : c.ttl < now - entry.created_at
    · rw [if_pos ht]
      exact cacheInv_remove st q h
    · rw [if_neg ht]
      obtain ⟨h1, h2, h3⟩ := h
      have hcont : mapContains st.entries q = true := mapContains_of_mapGet_some hx
      refine ⟨?_, ?_, ?_⟩
      · refine List.Nodup.append (h1.filter _) (List.nodup_singleton q) ?_
        intro a ha hb
        rw [List.mem_singleton] at hb
        subst hb
        have hne := (List.mem_filter.mp ha).2
        simp at hne
      · rw [keys_mapInsert_contains _ _ _ hcont]
        exact h2
      · intro k
        rw [mapContains_eq_true_iff, keys_mapInsert_contains _ _ _ hcont,
          List.mem_append, List.mem_filter, List.mem_singleton]
        constructor
        · intro hk
          by_cases hkq : k = q
          · exact Or.inr hkq
          · exact Or.inl ⟨(h3 k).mp ((mapContains_eq_true_iff _ _).mpr hk),
              by simpa using hkq⟩
        · rintro (⟨hk, _⟩ | rfl)
          · exact (mapContains_eq_true_iff _ _).mp ((h3 k).mpr hk)
          · exact (mapContains_eq_true_iff _ _).mp hcont

/-- The eviction stage of `put` preserves the invariant. -/
theorem cacheInv_putEvict (c : CacheCfg) (st : CacheInner) (q : String)
    (h : CacheInv st) : CacheInv (putEvict c st q) := by
  unfold putEvict
  split
  · cases hh : st.access_order.head? with
    | none => exact h
    | some lru => exact cacheInv_remove st lru h
  · exact h

/-- The storage stage of `put` preserves the invariant. -/
theorem cacheInv_putStore (st : CacheInner) (now : Nat) (q : String) (r : RowSet)
    (h : CacheInv st) : CacheInv (putStore st now q r) := by
  obtain ⟨h1, h2, h3⟩ := h
  unfold putStore
  by_cases hc : mapContains st.entries q = true
  · have hq : q ∈ st.access_order := (h3 q).mp hc
    have hqc : st.access_order.contains q = true := by simpa using hq
    rw [if_pos hqc]
    refine ⟨h1, ?_, ?_⟩
    · rw [keys_mapInsert_contains _ _ _ hc]
      exact h2
    · intro k
      rw [mapContains_eq_true_iff, keys_mapInsert_contains _ _ _ hc,
        ← mapContains_eq_true_iff]
      exact h3 k
  · have hq : q ∉ st.access_order := fun hmem => hc ((h3 q).mpr hmem)
    have hqc : ¬(st.access_order.contains q = true) := by simpa using hq
    rw [if_neg hqc]
    refine ⟨?_, ?_, ?_⟩
    · exact List.Nodup.append h1 (List.nodup_singleton q)
        (fun a ha hb => by rw [List.mem_singleton] at hb; subst hb; exact hq ha)
    · rw [keys_mapInsert_new _ _ _ (by simpa using hc)]
      exact List.Nodup.append h2 (List.nodup_singleton q)
        (fun a ha hb => by
          rw [List.mem_singleton] at hb
          subst hb
          exact hc ((mapContains_eq_true_iff _ _).mpr ha))
    · intro k
      rw [mapContains_eq_true_iff, keys_mapInsert_new _ _ _ (by simpa using hc),
        List.mem_append, List.mem_append, List.mem_singleton]
      constructor
      · rintro (hk | rfl)
        · exact Or.inl ((h3 k).mp ((mapContains_eq_true_iff _ _).mpr hk))
        · exact Or.inr rfl
      · rintro (hk | rfl)
        · exact Or.inl ((mapContains_eq_true_iff _ _).mp ((h3 k).mpr hk))
        · exact Or.inr rfl

/-- `QueryCache::put` preserves the invariant. -/
theorem cacheInv_put (c : CacheCfg) (st : CacheInner) (now : Nat) (q : String)
    (r : RowSet) (h : CacheInv st) : CacheInv (cachePut c st now q r) :=
  cacheInv_putStore (putEvict c st q) now q r (cacheInv_putEvict c st q h)

/-- `QueryCache::clear` establishes the invariant outright. -/
theorem cacheInv_clear (st : CacheInner) : CacheInv (cacheClear st) := by
  refine ⟨List.nodup_nil, List.nodup_nil, ?_⟩
  intro k
  simp [cacheClear, mapContains]

/-- C10 (confirmed): after any sequence of get, put and clear operations
on a fresh cache, the recency order has no duplicate keys and its key set
is exactly the key set of the entry map. -/
theorem cache_invariant_all_ops (c : CacheCfg) (ops : List CacheOp) :
    CacheInv (runOps c ops) := by
  suffices hstep : ∀ st, CacheInv st → CacheInv (ops.foldl (applyOp c) st) by
    exact hstep initCache cacheInv_init
  induction ops with
  | nil => exact fun st h => h
  | cons op ops ih =>
    intro st h
    rw [List.foldl_cons]
    apply ih
    cases op with
    | get now q => exact cacheInv_get c st now q h
    | put now q r => exact cacheInv_put c st now q r h
    | clear => exact cacheInv_clear st

/-- The entry map produced by the storage stage of `put`. -/
theorem putStore_entries (st : CacheInner) (now : Nat) (q : String) (r : RowSet) :
    (putStore st now q r).entries =
      mapInsert st.entries q { data := r, created_at := now, access_count := 1 } := by
  unfold putStore
  dsimp only
  by_cases hc : st.access_order.contains q = true
  · rw [if_pos hc]
  · rw [if_neg hc]

/-- The recency order produced by the storage stage of `put`. -/
theorem putStore_order (st : CacheInner) (now : Nat) (q : String) (r : RowSet) :
    (putStore st now q r).access_order =
      if st.access_order.contains q then st.access_order
      else st.access_order ++ [q] := by
  unfold putStore
  dsimp only
  by_cases hc : st.access_order.contains q = true
  · rw [if_pos hc, if_pos hc]
  · rw [if_neg hc, if_neg hc]

/-- The eviction stage does nothing when the key is already present. -/
theorem putEvict_of_contains (c : CacheCfg) (st : CacheInner) (q : String)
    (hc : mapContains st.entries q = true) : putEvict c st q = st := by
  unfold putEvict
  rw [if_neg (by simp [hc])]

/-- The eviction stage does nothing when the cache has free space. -/
theorem putEvict_of_space (c : CacheCfg) (st : CacheInner) (q : String)
    (hlen : st.entries.length < c.max_size) : putEvict c st q = st := by
  unfold putEvict
  rw [if_neg (by simp [Nat.not_le.mpr hlen])]

/-- The eviction stage removes the least-recently-used key when the cache
is full and the key is new. -/
theorem putEvict_evicts (c : CacheCfg) (st : CacheInner) (q : String)
    (hc : mapContains st.entries q = false) (hlen : c.max_size ≤ st.entries.length)
    (lru : String) (hh : st.access_order.head? = some lru) :
    putEvict c st q =
      { st with entries := mapRemove st.entries lru,
                access_order := st.access_order.filter (fun s => s != lru) } := by
  unfold putEvict
  rw [if_pos (by simp [hc, hlen]), hh]

/-- C5 (corrected): as stated, the claim is false — after filling a size-2
cache with k1 then k2 and then putting k1 again, the claim requires k1 to
be moved to the most-recently-used (last) position of the recency order,
but `QueryCache::put` only appends keys that are not already in the
order, so the order stays oldest-first k1, k2 and k1 remains the LRU key. -/
theorem cache_put_existing_key_not_moved :
    (cachePut ⟨60, 2⟩ (cachePut ⟨60, 2⟩ (cachePut ⟨60, 2⟩ initCache 0 ("k1") []) 1 ("k2") [])
        2 ("k1") []).access_order = [("k1"), ("k2")] ∧
    (cachePut ⟨60, 2⟩ (cachePut ⟨60, 2⟩ (cachePut ⟨60, 2⟩ initCache 0 ("k1") []) 1 ("k2") [])
        2 ("k1") []).access_order.getLast? ≠ some ("k1") := by
  refine ⟨rfl, ?_⟩
  intro hcontra
  rw [show (cachePut ⟨60, 2⟩ (cachePut ⟨60, 2⟩ (cachePut ⟨60, 2⟩ initCache 0 ("k1") []) 1
      ("k2") []) 2 ("k1") []).access_order = [("k1"), ("k2")] from rfl] at hcontra
  simp at hcontra

/-- C5 (amended): `put` stores the entry with a fresh timestamp and access
count 1; it evicts the single least-recently-used entry exactly when the
cache holds at least `max_size` entries and the key is new; a new key is
appended at the most-recently-used end of the recency order, while a key
that already existed keeps its previous position (it is not moved). -/
theorem cache_put_behaviour (c : CacheCfg) (st : CacheInner) (now : Nat)
    (q : String) (r : RowSet) (h : CacheInv st) :
    mapGet (cachePut c st now q r).entries q =
      some { data := r, created_at := now, access_count := 1 } ∧
    (mapContains st.entries q = true →
      (cachePut c st now q r).access_order = st.access_order) ∧
    (mapContains st.entries q = false → st.entries.length < c.max_size →
      (cachePut c st now q r).access_order = st.access_order ++ [q]) ∧
    (mapContains st.entries q = false → c.max_size ≤ st.entries.length →
      ∀ lru, st.access_order.head? = some lru →
        (cachePut c st now q r).access_order =
          st.access_order.filter (fun s => s != lru) ++ [q] ∧
        mapGet (cachePut c st now q r).entries lru = none) := by
  obtain ⟨h1, h2, h3⟩ := h
  refine ⟨?_, ?_, ?_, ?_⟩
  · unfold cachePut
    rw [putStore_entries]
    exact mapGet_mapInsert_self _ _ _
  · intro hc
    unfold cachePut
    rw [putEvict_of_contains c st q hc, putStore_order,
      if_pos (by simpa using (h3 q).mp hc)]
  · intro hc hlen
    unfold cachePut
    have hq : q ∉ st.access_order := fun hmem => by simp [(h3 q).mpr hmem] at hc
    rw [putEvict_of_space c st q hlen, putStore_order, if_neg (by simpa using hq)]
  · intro hc hlen lru hh
    unfold cachePut
    rw [putEvict_evicts c st q hc hlen lru hh]
    have hlru_mem : lru ∈ st.access_order := by
      cases ho : st.access_order with
      | nil => rw [ho] at hh; cases hh
      | cons a t =>
        rw [ho] at hh
        simp at hh
        simp [hh]
    have hlruc : mapContains st.entries lru = true := (h3 lru).mpr hlru_mem
    have hne : lru ≠ q := by
      intro he
      rw [he, hc] at hlruc
      cases hlruc
    have hq : q ∉ st.access_order := fun hmem => by simp [(h3 q).mpr hmem] at hc
    constructor
    · rw [putStore_order]
      have hqf : q ∉ st.access_order.filter (fun s => s != lru) :=
        fun hmem => hq (List.mem_filter.mp hmem).1
      rw [if_neg (by simpa using hqf)]
    · rw [putStore_entries, mapGet_mapInsert_ne _ _ _ _ hne]
      exact mapGet_mapRemove_self _ _

/-- Witness for the amended C5 theorem: a put into an empty size-2 cache
stores a fresh entry and appends the key at the MRU end. -/
theorem cache_put_behaviour_witness :
    mapGet (cachePut ⟨60, 2⟩ initCache 7 ("q") [[("a", JValue.str ("b"))]]).entries ("q") =
      some { data := [[("a", JValue.str ("b"))]], created_at := 7, access_count := 1 } ∧
    (cachePut ⟨60, 2⟩ initCache 7 ("q") [[("a", JValue.str ("b"))]]).access_order = [("q")] := by
  have h := cache_put_behaviour ⟨60, 2⟩ initCache 7 ("q") [[("a", JValue.str ("b"))]]
    cacheInv_init
  refine ⟨h.1, ?_⟩
  have h3 := h.2.2.1 rfl (by simp [initCache])
  simpa [initCache] using h3
